import Mathlib

/-!
Verification of the `raw-seeders` codec combinator library (src/src/lib.rs).

The library's codecs drive an external serde engine that walks a packed,
non-self-describing byte stream.  We embed that engine with its natural
byte-level semantics, as described in the specification (sections 3 and 6):

* the decode cursor is a `List Nat`; reading `n` raw bytes (what
  `PhantomData::<[u8; 4]>.deserialize` does on the integer path) takes the
  first `n` bytes and fails with an end-of-input error when fewer remain;
* `deserialize_tuple` / `deserialize_seq` add no framing bytes; their
  `SeqAccess::next_element_seed` reports end-of-sequence (`None`) exactly
  when the cursor is exhausted, and otherwise runs the element seed on the
  remaining bytes;
* `serialize_bytes` appends the raw bytes; `serialize_tuple` /
  `serialize_seq` framing writes nothing, elements are written in order.

Each codec's `DeserializeSeed::deserialize` becomes a function
`List Nat → Except DeError (value × List Nat)` (value plus remaining
cursor) and each `Serialize::serialize` becomes a function producing
`Except SerError (List Nat)`.  Bytes are naturals; byte buffers produced
by real engines satisfy `ValidBytes` (every byte below 256).
-/

/-- Every byte of the buffer is an actual 8-bit value. -/
abbrev ValidBytes (bs : List Nat) : Prop := ∀ b ∈ bs, b < 256

/-- Decode-side errors, mirroring the `serde::de::Error` values the source
constructs plus the engine's end-of-input failure:

* `invalidLength got` — `de::Error::invalid_length(got, _)`, raised by
  `Literal` (index reached), the `DeTupleable` `Array` impl (items
  obtained) and `TupleNSeed` (items obtained);
* `invalidValue received expected literal` — the `Literal` mismatch error
  `invalid_value(Unexpected::Unsigned(received), "{expected} in {literal}")`;
  note its payload carries the received byte, the expected byte and the
  configured literal, but no index;
* `endOfInput` — the engine's failure when fewer raw bytes remain than a
  fixed-width read requests;
* `unmappableByte index value` — strict text decoding hit a byte with no
  table entry (`DecoderTrap::Strict`, surfaced via `de::Error::custom`). -/
inductive DeError : Type
  | invalidLength (got : Nat)
  | invalidValue (received : Nat) (expected : Nat) (literal : List Nat)
  | endOfInput
  | unmappableByte (index : Nat) (value : Nat)
  deriving DecidableEq

/-- Encode-side errors, mirroring the `serde::ser::Error` values the source
constructs:

* `lengthMismatch expected got` — `TupleNSeeded::serialize`'s custom error
  "Tried to serialise SeqN({expected}, _) from a .len = {got}";
* `overflow value` — `cast::u32(usize)` failed in `TryAsU32able::to`
  (the value does not fit in 32 bits), surfaced via `ser::Error::custom`;
* `unmappableChar c` — strict text encoding hit a character with no table
  entry (`EncoderTrap::Strict`, surfaced via `ser::Error::custom`). -/
inductive SerError : Type
  | lengthMismatch (expected : Nat) (got : Nat)
  | overflow (value : Nat)
  | unmappableChar (c : Nat)
  deriving DecidableEq

/-- The specification's "length error" taxonomy entry: fewer elements or
bytes available than required (section 7). -/
def isLengthErr : DeError → Bool
  | .invalidLength _ => true
  | .endOfInput => true
  | _ => false

/-! ## Byte-order integer codec (`LittleEndian` / `ByteOrdered for u32`) -/

/-- Reassemble four little-endian bytes, as `u32::from_le_bytes` does. -/
def fromLeBytes4 (b0 b1 b2 b3 : Nat) : Nat :=
  b0 + 2 ^ 8 * b1 + 2 ^ 16 * b2 + 2 ^ 24 * b3

/-- Split a 32-bit value into its little-endian bytes, as
`u32::to_le_bytes` does (least significant byte first). -/
def toLeBytes4 (v : Nat) : List Nat :=
  [v % 2 ^ 8, v / 2 ^ 8 % 2 ^ 8, v / 2 ^ 16 % 2 ^ 8, v / 2 ^ 24 % 2 ^ 8]

/-- `<u32 as ByteOrdered>::deserialize_le`: the engine reads exactly four
raw bytes (`PhantomData::<[u8; 4]>.deserialize`), which are reassembled
least-significant first; fewer than four remaining bytes is the engine's
end-of-input failure. -/
def u32De : List Nat → Except DeError (Nat × List Nat)
  | b0 :: b1 :: b2 :: b3 :: rest => .ok (fromLeBytes4 b0 b1 b2 b3, rest)
  | _ => .error .endOfInput

/-- `<u32 as ByteOrdered>::serialize_le`: `serialize_bytes(&v.to_le_bytes())`.
Cannot fail. -/
def u32Ser (v : Nat) : List Nat := toLeBytes4 v

/-- `u32Ser` wrapped in the encode result channel, for use as an item
encoder inside container codecs. -/
def u32SerE (v : Nat) : Except SerError (List Nat) := .ok (u32Ser v)

/-! ## Literal codec (`Literal`) -/

/-- The loop of `Literal`'s `visit_seq`: compare the remaining expected
bytes (`self.0.iter().enumerate()`, current index `i`) against bytes drawn
from the cursor.  Running out of input yields `invalid_length(i, _)`; the
first mismatch yields the `invalid_value` error carrying the received
byte, the expected byte and the whole configured literal `full`. -/
def literalGo (full : List Nat) : List Nat → Nat → List Nat →
    Except DeError (Unit × List Nat)
  | [], _, bs => .ok ((), bs)
  | expected :: lit, i, bs =>
    match bs with
    | [] => .error (.invalidLength i)
    | received :: bs' =>
      if expected = received then literalGo full lit (i + 1) bs'
      else .error (.invalidValue received expected full)

/-- `<Literal as DeserializeSeed>::deserialize`: read `lit.length` bytes,
comparing each against the configured literal in order; produce unit. -/
def literalDe (lit : List Nat) (bs : List Nat) : Except DeError (Unit × List Nat) :=
  literalGo lit lit 0 bs

/-- `<Literal as Serialize>::serialize`: write exactly the configured
bytes, unconditionally. -/
def literalSer (lit : List Nat) : List Nat := lit

/-! ## IEEE-754 float codec (`IEEE754` with `IEEE754able for f32` / `f64`) -/

/-- A Rust `f32` value, identified with its bit pattern (the source's
`IEEE754able` impl moves between the two with `from_bits` / `to_bits`,
which are total bitwise casts). -/
structure F32 where
  bits : Nat
  deriving DecidableEq

/-- `f32::from_bits`: total, no validation of NaN or infinity patterns. -/
def f32FromBits (r : Nat) : F32 := ⟨r⟩

/-- `f32::to_bits`: the raw bit pattern. -/
def f32ToBits (x : F32) : Nat := x.bits

/-- A Rust `f64` value, identified with its bit pattern. -/
structure F64 where
  bits : Nat
  deriving DecidableEq

/-- `f64::from_bits`: total, no validation. -/
def f64FromBits (r : Nat) : F64 := ⟨r⟩

/-- `f64::to_bits`: the raw bit pattern. -/
def f64ToBits (x : F64) : Nat := x.bits

/-- `IEEE754Seed::deserialize` at `T = f32` with the nested little-endian
`u32` codec: decode the nested integer, then `.map(T::from)` reinterprets
its bits as the float. -/
def f32De (bs : List Nat) : Except DeError (F32 × List Nat) :=
  match u32De bs with
  | .error e => .error e
  | .ok (r, rest) => .ok (f32FromBits r, rest)

/-- `IEEE754Seeded::serialize` at `T = f32`: `self.0.to()` extracts the raw
bit pattern, which the nested little-endian `u32` codec writes. -/
def f32Ser (x : F32) : List Nat := u32Ser (f32ToBits x)

/-- The exponent field of an `F32` (bits 23..31). -/
def f32Exponent (x : F32) : Nat := x.bits / 2 ^ 23 % 2 ^ 8

/-- The mantissa field of an `F32` (bits 0..23). -/
def f32Mantissa (x : F32) : Nat := x.bits % 2 ^ 23

/-- The sign bit of an `F32` (bit 31). -/
def f32Sign (x : F32) : Nat := x.bits / 2 ^ 31 % 2

/-- A NaN pattern: exponent all ones with a nonzero mantissa. -/
def f32IsNaN (x : F32) : Bool := f32Exponent x = 255 && f32Mantissa x ≠ 0

/-- A zero pattern (either sign). -/
def f32IsZero (x : F32) : Bool := x.bits % 2 ^ 31 = 0

/-- Modelled from the spec: Rust's `f32` equality (`PartialEq`, IEEE-754
equality) — this is "the type's defined equality" the round-trip invariant
refers to.  NaN compares unequal to everything, including itself; positive
and negative zero compare equal; all other patterns compare bitwise. -/
def f32Eq (a b : F32) : Bool :=
  !f32IsNaN a && !f32IsNaN b && (a.bits == b.bits || (f32IsZero a && f32IsZero b))

/-- The real number an `F32` bit pattern denotes (`none` for NaN and the
infinities), from the IEEE-754 binary32 layout: sign, 8 exponent bits
biased by 127, 23 mantissa bits with an implicit leading one for normal
values.  Used to pin concrete patterns such as `1.0f32` to their values. -/
def f32ToRat (x : F32) : Option ℚ :=
  let s : ℚ := if f32Sign x = 1 then -1 else 1
  if f32Exponent x = 255 then none
  else if f32Exponent x = 0 then
    some (s * (f32Mantissa x : ℚ) / 2 ^ 149)
  else
    some (s * ((2 ^ 23 + f32Mantissa x : ℚ) * 2 ^ f32Exponent x) / 2 ^ 150)

/-! ## Container codecs (`Tuple`, `TupleN`, `Seq`, `LengthPrefixed`)

All four drive the same element loop on decode:
`iter::from_fn(|| match seq.next_element_seed(item_seed) { Ok(next) => next,
Err(e) => { error = Err(e); None } })`.  `takeItems` models that loop with
an optional `.take(n)` bound: it returns the elements obtained, the
remaining cursor, and the captured error (if the loop stopped on one). -/

/-- The shared decode loop: draw up to `n` elements.  The engine's
`next_element_seed` reports `None` exactly when the cursor is exhausted;
otherwise it runs the item seed.  An item-seed failure is stored (the
`error` local of the source) and stops the loop. -/
def takeItems {α : Type} (deItem : List Nat → Except DeError (α × List Nat)) :
    Nat → List Nat → List α × List Nat × Option DeError
  | 0, bs => ([], bs, none)
  | Nat.succ n, bs =>
    match bs with
    | [] => ([], [], none)
    | b :: bs' =>
      match deItem (b :: bs') with
      | .error e => ([], b :: bs', some e)
      | .ok (v, rest) =>
        match takeItems deItem n rest with
        | (vs, rest', err) => (v :: vs, rest', err)

/-- The shared encode loop (`SerTupleable::to` / `SerTupleNable::to` /
`SerSeqable::to` for slice-like containers): write each element via the
item seeder, in order, stopping at the first element error. -/
def serElements {α : Type} (serItem : α → Except SerError (List Nat)) :
    List α → Except SerError (List Nat)
  | [] => .ok []
  | x :: xs =>
    match serItem x with
    | .error e => .error e
    | .ok bv =>
      match serElements serItem xs with
      | .error e => .error e
      | .ok bs => .ok (bv ++ bs)

/-- `TupleSeed::deserialize` (fixed arity `n = T::len()`): run the element
loop bounded by `n`, then build the array (`DeTupleable for T: Array`),
which fails with `invalid_length(got, _)` when the iterator ran short.
Note the captured element error is never consulted afterwards — the
source's `error` local in this visitor is dead, unlike `TupleNSeed`'s. -/
def tupleDe {α : Type} (n : Nat) (deItem : List Nat → Except DeError (α × List Nat))
    (bs : List Nat) : Except DeError (List α × List Nat) :=
  match takeItems deItem n bs with
  | (vs, rest, _err) =>
    if vs.length < n then .error (.invalidLength vs.length)
    else .ok (vs, rest)

/-- `TupleSeeded::serialize`: `serializer.serialize_tuple(self.0.len())`
with the container's own length (no arity check anywhere on this path),
then all elements in order. -/
def tupleSer {α : Type} (serItem : α → Except SerError (List Nat)) (xs : List α) :
    Except SerError (List Nat) :=
  serElements serItem xs

/-- `TupleNSeed::deserialize` (runtime count `n`): run the element loop
bounded by `n`, collect into a `Vec` (never fails), then `error?`
propagates a captured element error, then the count is asserted:
`if self.0 != vec.len() { invalid_length(vec.len(), _) }`. -/
def tupleNDe {α : Type} (n : Nat) (deItem : List Nat → Except DeError (α × List Nat))
    (bs : List Nat) : Except DeError (List α × List Nat) :=
  match takeItems deItem n bs with
  | (_, _, some e) => .error e
  | (vs, rest, none) =>
    if n ≠ vs.length then .error (.invalidLength vs.length)
    else .ok (vs, rest)

/-- `TupleNSeeded::serialize`: assert the configured count against the
container's length before anything is written, then write the elements. -/
def tupleNSer {α : Type} (n : Nat) (serItem : α → Except SerError (List Nat))
    (xs : List α) : Except SerError (List Nat) :=
  if n ≠ xs.length then .error (.lengthMismatch n xs.length)
  else serElements serItem xs

/-- `SeqSeed::deserialize` (unbounded): the same element loop without a
bound, stopping at cursor exhaustion or at a captured element error; the
collected prefix is returned as the `Vec` and — as in the source, whose
`error` local is never consulted — a captured error is discarded.  The
fuel argument `bs.length` only bounds the recursion: every element codec
of the library consumes at least one byte per element, so the loop always
stops by exhaustion or error first. -/
def seqGo {α : Type} (deItem : List Nat → Except DeError (α × List Nat)) :
    Nat → List Nat → List α × List Nat
  | 0, bs => ([], bs)
  | Nat.succ fuel, bs =>
    match bs with
    | [] => ([], [])
    | b :: bs' =>
      match deItem (b :: bs') with
      | .error _ => ([], b :: bs')
      | .ok (v, rest) =>
        match seqGo deItem fuel rest with
        | (vs, rest') => (v :: vs, rest')

/-- `SeqSeed::deserialize`: always returns `Ok` with whatever prefix of
elements decoded before exhaustion or the first element error. -/
def seqDe {α : Type} (deItem : List Nat → Except DeError (α × List Nat))
    (bs : List Nat) : Except DeError (List α × List Nat) :=
  .ok (seqGo deItem bs.length bs)

/-- `TryAsU32Seed::deserialize` for `usize` with the nested little-endian
`u32` codec: decode the `u32`, then `cast::usize(repr)` — an infallible
widening on the library's 64-bit targets. -/
def tryAsU32De (bs : List Nat) : Except DeError (Nat × List Nat) :=
  match u32De bs with
  | .error e => .error e
  | .ok (r, rest) => .ok (r, rest)

/-- `TryAsU32Seeded::serialize` for `usize`: `cast::u32(*self)` fails with
a conversion error whenever the value exceeds `u32::MAX`; on success the
nested little-endian `u32` codec writes it. -/
def tryAsU32Ser (v : Nat) : Except SerError (List Nat) :=
  if v < 2 ^ 32 then .ok (u32Ser v) else .error (.overflow v)

/-- `LengthPrefixedSeed::deserialize`: the derived layout decodes the
`length` field via the length seeder, then `data` via
`TupleN(length, item_seeder)`; only `data` is returned. -/
def lengthPrefDe {α : Type} (lenDe : List Nat → Except DeError (Nat × List Nat))
    (deItem : List Nat → Except DeError (α × List Nat)) (bs : List Nat) :
    Except DeError (List α × List Nat) :=
  match lenDe bs with
  | .error e => .error e
  | .ok (n, rest) => tupleNDe n deItem rest

/-- `LengthPrefixedSeeded::serialize`: the derived layout writes
`length = vec.len()` via the length seeder, then `data` via
`TupleN(*length, item_seeder)` (whose count assertion holds trivially). -/
def lengthPrefSer {α : Type} (lenSer : Nat → Except SerError (List Nat))
    (serItem : α → Except SerError (List Nat)) (xs : List α) :
    Except SerError (List Nat) :=
  match lenSer xs.length with
  | .error e => .error e
  | .ok lenBytes =>
    match tupleNSer xs.length serItem xs with
    | .error e => .error e
    | .ok body => .ok (lenBytes ++ body)

/-! ## Fixed-table text codec (`Windows1252`)

The single-byte table itself lives in the external `encoding` crate; the
traversal below is modelled from the spec (section 4.9). -/

/-- Modelled from the spec: the external table decode under
`DecoderTrap::Strict` (the trap the source selects) — map each byte of the
buffer through the table in order, failing on the first byte with no
mapping, with no best-effort substitution.  `i` is the position of the
first remaining byte. -/
def strictTableDecode (table : Nat → Option Nat) :
    List Nat → Nat → Except DeError (List Nat)
  | [], _ => .ok []
  | b :: bs, i =>
    match table b with
    | none => .error (.unmappableByte i b)
    | some c =>
      match strictTableDecode table bs (i + 1) with
      | .error e => .error e
      | .ok cs => .ok (c :: cs)

/-- Modelled from the spec: the external table encode under
`EncoderTrap::Strict` — map each character through the inverse table,
failing on the first character outside the table's domain. -/
def strictTableEncode (inv : Nat → Option Nat) :
    List Nat → Except SerError (List Nat)
  | [] => .ok []
  | c :: cs =>
    match inv c with
    | none => .error (.unmappableChar c)
    | some b =>
      match strictTableEncode inv cs with
      | .error e => .error e
      | .ok bs => .ok (b :: bs)

/-- `Windows1252Seed::deserialize`: decode the byte buffer via the nested
bytes codec, then `T::from` runs the strict table decode. -/
def windows1252De (table : Nat → Option Nat)
    (deBytes : List Nat → Except DeError (List Nat × List Nat)) (bs : List Nat) :
    Except DeError (List Nat × List Nat) :=
  match deBytes bs with
  | .error e => .error e
  | .ok (raw, rest) =>
    match strictTableDecode table raw 0 with
    | .error e => .error e
    | .ok s => .ok (s, rest)

/-- `Windows1252Seeded::serialize`: `self.0.to()?` runs the strict table
encode, then the nested bytes codec writes the buffer. -/
def windows1252Ser (inv : Nat → Option Nat)
    (serBytes : List Nat → Except SerError (List Nat)) (s : List Nat) :
    Except SerError (List Nat) :=
  match strictTableEncode inv s with
  | .error e => .error e
  | .ok raw => serBytes raw

/-! ## Round-trip vocabulary

The round-trip law quantifies over "values accepted by a codec's domain"
(spec section 3, invariant 1).  For a leaf codec the domain is a predicate
on values; for a container it is inherited element-wise. -/

/-- Decoding inverts encoding on the codec's domain `P`: whatever the
encoder emits, the decoder consumes exactly and returns the value. -/
def EncDecId {α : Type} (P : α → Prop) (serItem : α → Except SerError (List Nat))
    (deItem : List Nat → Except DeError (α × List Nat)) : Prop :=
  ∀ v bv rest, P v → serItem v = .ok bv → deItem (bv ++ rest) = .ok (v, rest)

/-- Encoding inverts decoding: any successfully decoded byte prefix is
reproduced byte-identically by re-encoding the decoded value. -/
def DecEncId {α : Type} (serItem : α → Except SerError (List Nat))
    (deItem : List Nat → Except DeError (α × List Nat)) : Prop :=
  ∀ bs v rest, ValidBytes bs → deItem bs = .ok (v, rest) →
    ∃ bv, serItem v = .ok bv ∧ bv ++ rest = bs

/-- Every successful encoding is nonempty — true of every codec of the
library, and what lets a container distinguish "more elements" from
end-of-input. -/
def ConsumesInput {α : Type} (serItem : α → Except SerError (List Nat)) : Prop :=
  ∀ v bv, serItem v = .ok bv → bv ≠ []

/-! Quick sanity examples (concrete evaluations). -/

example : u32Ser 0x01020304 = [4, 3, 2, 1] := by decide
example : u32De [4, 3, 2, 1] = .ok (0x01020304, []) := rfl
example : literalDe [1, 2, 4] [1, 2, 3] = .error (.invalidValue 3 4 [1, 2, 4]) := rfl
example : f32Ser ⟨0x3F800000⟩ = [0, 0, 0x80, 0x3F] := by decide
example : f32ToRat ⟨0x3F800000⟩ = some 1 := by
  norm_num [f32ToRat, f32Sign, f32Exponent, f32Mantissa]
example : f32Eq ⟨0x7FC00000⟩ ⟨0x7FC00000⟩ = false := by decide
example : tupleDe 2 (fun bs => literalDe [170] bs) [170, 187] =
    .error (.invalidLength 1) := rfl
example : seqDe u32De [1, 0, 0, 0, 99] = .ok ([1], [99]) := rfl
example : tupleNDe 2 u32De [1, 0, 0, 0, 2, 0, 0, 0] = .ok ([1, 2], []) := rfl
example : tupleNDe 5 u32De [1, 0, 0, 0, 2, 0, 0, 0] = .error (.invalidLength 2) := rfl
example : tupleNSer 3 u32SerE [1, 2] = .error (.lengthMismatch 3 2) := rfl
example : lengthPrefSer tryAsU32Ser u32SerE [10, 20] =
    .ok [2, 0, 0, 0, 10, 0, 0, 0, 20, 0, 0, 0] := rfl
example : lengthPrefDe tryAsU32De u32De [2, 0, 0, 0, 10, 0, 0, 0, 20, 0, 0, 0] =
    .ok ([10, 20], []) := rfl
example : tupleSer u32SerE [10, 20] = .ok [10, 0, 0, 0, 20, 0, 0, 0] := rfl

/-! ## Helper lemmas: the little-endian `u32` codec -/

/-- Bytes written by `u32Ser` are 8-bit values. -/
theorem u32Ser_valid (v : Nat) : ValidBytes (u32Ser v) := by
  intro b hb
  simp only [u32Ser, toLeBytes4, List.mem_cons, List.not_mem_nil, or_false] at hb
  rcases hb with rfl | rfl | rfl | rfl <;> omega

/-- Decoding inverts encoding for 32-bit values. -/
theorem u32_encDec : EncDecId (fun v => v < 2 ^ 32) u32SerE u32De := by
  intro v bv rest hP hser
  simp only [u32SerE, u32Ser, Except.ok.injEq] at hser
  subst hser
  simp only [toLeBytes4, List.cons_append, List.nil_append, u32De, fromLeBytes4,
    Except.ok.injEq, Prod.mk.injEq]
  exact ⟨by omega, trivial⟩

/-- Re-encoding inverts decoding, byte-identically, on real byte input. -/
theorem u32_decEnc : DecEncId u32SerE u32De := by
  intro bs v rest hV h
  match bs with
  | [] => exact absurd h (by simp [u32De])
  | [b0] => exact absurd h (by simp [u32De])
  | [b0, b1] => exact absurd h (by simp [u32De])
  | [b0, b1, b2] => exact absurd h (by simp [u32De])
  | b0 :: b1 :: b2 :: b3 :: rest' =>
    simp only [u32De, Except.ok.injEq, Prod.mk.injEq] at h
    obtain ⟨rfl, rfl⟩ := h
    have h0 : b0 < 256 := hV b0 (by simp)
    have h1 : b1 < 256 := hV b1 (by simp)
    have h2 : b2 < 256 := hV b2 (by simp)
    have h3 : b3 < 256 := hV b3 (by simp)
    refine ⟨u32Ser (fromLeBytes4 b0 b1 b2 b3), rfl, ?_⟩
    simp only [u32Ser, toLeBytes4, fromLeBytes4, List.cons_append, List.nil_append,
      List.cons.injEq]
    refine ⟨by omega, by omega, by omega, by omega, trivial⟩

/-- Encoded 32-bit integers occupy four bytes, hence are nonempty. -/
theorem u32_consumes : ConsumesInput u32SerE := by
  intro v bv h
  simp only [u32SerE, u32Ser, toLeBytes4, Except.ok.injEq] at h
  subst h
  simp

/-- A value successfully decoded from real bytes fits in 32 bits. -/
theorem u32De_lt (bs : List Nat) (v : Nat) (rest : List Nat)
    (hV : ValidBytes bs) (h : u32De bs = .ok (v, rest)) : v < 2 ^ 32 := by
  match bs with
  | [] => exact absurd h (by simp [u32De])
  | [b0] => exact absurd h (by simp [u32De])
  | [b0, b1] => exact absurd h (by simp [u32De])
  | [b0, b1, b2] => exact absurd h (by simp [u32De])
  | b0 :: b1 :: b2 :: b3 :: rest' =>
    simp only [u32De, Except.ok.injEq, Prod.mk.injEq] at h
    obtain ⟨rfl, rfl⟩ := h
    have h0 : b0 < 256 := hV b0 (by simp)
    have h1 : b1 < 256 := hV b1 (by simp)
    have h2 : b2 < 256 := hV b2 (by simp)
    have h3 : b3 < 256 := hV b3 (by simp)
    simp only [fromLeBytes4]
    omega

/-! ## Helper lemmas: the `Literal` codec -/

/-- Success case of the comparison loop: the expected bytes are drawn and
the remainder is left on the cursor. -/
theorem literalGo_matches (full : List Nat) :
    ∀ (lit : List Nat) (i : Nat) (rest : List Nat),
      literalGo full lit i (lit ++ rest) = .ok ((), rest) := by
  intro lit
  induction lit with
  | nil => intro i rest; rfl
  | cons x lit ih => intro i rest; simp [literalGo, ih]

/-- A successful comparison consumed exactly the literal as a prefix. -/
theorem literalGo_ok_append (full : List Nat) :
    ∀ (lit : List Nat) (i : Nat) (bs rest : List Nat),
      literalGo full lit i bs = .ok ((), rest) → lit ++ rest = bs := by
  intro lit
  induction lit with
  | nil =>
    intro i bs rest h
    simp only [literalGo, Except.ok.injEq, Prod.mk.injEq, true_and] at h
    simp [h]
  | cons expected lit ih =>
    intro i bs rest h
    cases bs with
    | nil => exact absurd h (by simp [literalGo])
    | cons received bs' =>
      simp only [literalGo] at h
      split at h
      · rename_i heq
        subst heq
        simpa using ih (i + 1) bs' rest h
      · exact absurd h (by simp)

/-- First-mismatch case: the error carries the received byte, the expected
byte and the configured literal — and nothing depending on the index. -/
theorem literalGo_mismatch (full : List Nat) :
    ∀ (common : List Nat) (x y : Nat) (t1 t2 : List Nat) (i : Nat), x ≠ y →
      literalGo full (common ++ x :: t1) i (common ++ y :: t2) =
        .error (.invalidValue y x full) := by
  intro common
  induction common with
  | nil => intro x y t1 t2 i hxy; simp [literalGo, hxy]
  | cons c common ih => intro x y t1 t2 i hxy; simp [literalGo, ih _ _ _ _ _ hxy]

/-- Exhaustion case: when the cursor holds only a proper prefix of the
literal, the loop fails with `invalid_length` at the count obtained. -/
theorem literalGo_short (full : List Nat) :
    ∀ (bs ext : List Nat) (i : Nat), ext ≠ [] →
      literalGo full (bs ++ ext) i bs = .error (.invalidLength (i + bs.length)) := by
  intro bs
  induction bs with
  | nil =>
    intro ext i hext
    cases ext with
    | nil => exact absurd rfl hext
    | cons e ext' => simp [literalGo]
  | cons b bs ih =>
    intro ext i hext
    have harith : i + (b :: bs).length = (i + 1) + bs.length := by
      simp only [List.length_cons]; omega
    rw [harith]
    simpa [literalGo] using ih ext (i + 1) hext

/-! ## Helper lemmas: the shared container loops -/

/-- Bytes of the tail segment that a successful element decode leaves are
bytes of the original buffer. -/
theorem validBytes_append (a b : List Nat) (h : ValidBytes (a ++ b)) :
    ValidBytes b := fun y hy => h y (List.mem_append_right a hy)

/-- If the element loop stopped on a captured error, it obtained strictly
fewer elements than its bound. -/
theorem takeItems_some_lt {α : Type} (deItem : List Nat → Except DeError (α × List Nat)) :
    ∀ (n : Nat) (bs : List Nat) (vs : List α) (rest : List Nat) (e : DeError),
      takeItems deItem n bs = (vs, rest, some e) → vs.length < n := by
  intro n
  induction n with
  | zero =>
    intro bs vs rest e h
    simp [takeItems] at h
  | succ n ih =>
    intro bs vs rest e h
    cases bs with
    | nil => simp [takeItems] at h
    | cons b bs' =>
      cases hde : deItem (b :: bs') with
      | error e' =>
        simp only [takeItems, hde, Prod.mk.injEq] at h
        obtain ⟨h1, -, -⟩ := h
        subst h1
        simp
      | ok p =>
        obtain ⟨v, rest0⟩ := p
        rcases htk : takeItems deItem n rest0 with ⟨vs', rest2, err⟩
        simp only [takeItems, hde, htk, Prod.mk.injEq] at h
        obtain ⟨h1, -, h3⟩ := h
        subst h1
        subst h3
        have := ih rest0 vs' rest2 e htk
        simp only [List.length_cons]
        omega

/-- Encode-then-decode for the element loops: the loop bounded by the
element count consumes exactly the encoded segments, reproduces the
elements in order, and captures no error. -/
theorem serElements_takeItems {α : Type} {P : α → Prop}
    {serItem : α → Except SerError (List Nat)}
    {deItem : List Nat → Except DeError (α × List Nat)}
    (hED : EncDecId P serItem deItem) (hC : ConsumesInput serItem) :
    ∀ (xs : List α) (bxs rest : List Nat), (∀ x ∈ xs, P x) →
      serElements serItem xs = .ok bxs →
      takeItems deItem xs.length (bxs ++ rest) = (xs, rest, none) := by
  intro xs
  induction xs with
  | nil =>
    intro bxs rest hP hser
    simp only [serElements, Except.ok.injEq] at hser
    subst hser
    simp [takeItems]
  | cons x xs ih =>
    intro bxs rest hP hser
    cases hsx : serItem x with
    | error e =>
      simp only [serElements, hsx] at hser
      exact Except.noConfusion hser
    | ok bv =>
      cases hsxs : serElements serItem xs with
      | error e =>
        simp only [serElements, hsx, hsxs] at hser
        exact Except.noConfusion hser
      | ok brest =>
        simp only [serElements, hsx, hsxs, Except.ok.injEq] at hser
        subst hser
        have hbv : bv ≠ [] := hC x bv hsx
        cases bv with
        | nil => exact absurd rfl hbv
        | cons c bv' =>
          have hd : deItem (c :: (bv' ++ (brest ++ rest))) = .ok (x, brest ++ rest) :=
            hED x (c :: bv') (brest ++ rest) (hP x (by simp)) hsx
          have htail : takeItems deItem xs.length (brest ++ rest) = (xs, rest, none) :=
            ih brest rest (fun y hy => hP y (by simp [hy])) hsxs
          simp only [List.cons_append, List.append_assoc, List.length_cons, takeItems,
            hd, htail]

/-- Decode-then-encode for the element loops: when the loop stops without
a captured error, re-encoding the obtained elements reproduces exactly the
consumed bytes. -/
theorem takeItems_serElements {α : Type}
    {serItem : α → Except SerError (List Nat)}
    {deItem : List Nat → Except DeError (α × List Nat)}
    (hDE : DecEncId serItem deItem) :
    ∀ (n : Nat) (bs : List Nat) (vs : List α) (rest : List Nat), ValidBytes bs →
      takeItems deItem n bs = (vs, rest, none) →
      ∃ bxs, serElements serItem vs = .ok bxs ∧ bxs ++ rest = bs := by
  intro n
  induction n with
  | zero =>
    intro bs vs rest hV h
    simp only [takeItems, Prod.mk.injEq] at h
    obtain ⟨h1, h2, -⟩ := h
    subst h1
    subst h2
    exact ⟨[], rfl, rfl⟩
  | succ n ih =>
    intro bs vs rest hV h
    cases bs with
    | nil =>
      simp only [takeItems, Prod.mk.injEq] at h
      obtain ⟨h1, h2, -⟩ := h
      subst h1
      subst h2
      exact ⟨[], rfl, rfl⟩
    | cons b bs' =>
      cases hde : deItem (b :: bs') with
      | error e =>
        simp only [takeItems, hde, Prod.mk.injEq] at h
        obtain ⟨-, -, h3⟩ := h
        exact Option.noConfusion h3
      | ok p =>
        obtain ⟨v, rest0⟩ := p
        rcases htk : takeItems deItem n rest0 with ⟨vs', rest2, err⟩
        simp only [takeItems, hde, htk, Prod.mk.injEq] at h
        obtain ⟨h1, h2, h3⟩ := h
        subst h1
        subst h2
        subst h3
        obtain ⟨bv, hbv, hcat⟩ := hDE (b :: bs') v rest0 hV hde
        have hVr : ValidBytes rest0 := by
          rw [← hcat] at hV
          exact validBytes_append bv rest0 hV
        obtain ⟨brest, hbrest, hcat2⟩ := ih rest0 vs' _ hVr htk
        refine ⟨bv ++ brest, ?_, ?_⟩
        · simp [serElements, hbv, hbrest]
        · rw [List.append_assoc, hcat2, hcat]

/-! ## Helper lemmas: `Tuple`, `TupleN`, `LengthPrefixed` round trips -/

/-- Encode-then-decode for the fixed-arity `Tuple` codec, at the arity the
decode side derives from the container type (its length). -/
theorem tuple_encDec {α : Type} {P : α → Prop}
    {serItem : α → Except SerError (List Nat)}
    {deItem : List Nat → Except DeError (α × List Nat)}
    (hED : EncDecId P serItem deItem) (hC : ConsumesInput serItem)
    (xs : List α) (bxs rest : List Nat) (hP : ∀ x ∈ xs, P x)
    (hser : tupleSer serItem xs = .ok bxs) :
    tupleDe xs.length deItem (bxs ++ rest) = .ok (xs, rest) := by
  have htk := serElements_takeItems hED hC xs bxs rest hP hser
  simp [tupleDe, htk]

/-- Decode-then-encode for the fixed-arity `Tuple` codec. -/
theorem tuple_decEnc {α : Type}
    {serItem : α → Except SerError (List Nat)}
    {deItem : List Nat → Except DeError (α × List Nat)}
    (hDE : DecEncId serItem deItem)
    (n : Nat) (bs : List Nat) (vs : List α) (rest : List Nat) (hV : ValidBytes bs)
    (h : tupleDe n deItem bs = .ok (vs, rest)) :
    ∃ bxs, tupleSer serItem vs = .ok bxs ∧ bxs ++ rest = bs := by
  rcases htk : takeItems deItem n bs with ⟨vs', rest', err⟩
  simp only [tupleDe, htk] at h
  split at h
  · exact Except.noConfusion h
  · simp only [Except.ok.injEq, Prod.mk.injEq] at h
    obtain ⟨h1, h2⟩ := h
    subst h1
    subst h2
    cases err with
    | some e =>
      rename_i hlen
      exact absurd (takeItems_some_lt deItem n bs vs' rest' e htk) hlen
    | none => exact takeItems_serElements hDE n bs vs' rest' hV htk

/-- Encode-then-decode for the counted `TupleN` codec: a successful encode
already certifies the count, and decode re-obtains exactly the elements. -/
theorem tupleN_encDec {α : Type} {P : α → Prop}
    {serItem : α → Except SerError (List Nat)}
    {deItem : List Nat → Except DeError (α × List Nat)}
    (hED : EncDecId P serItem deItem) (hC : ConsumesInput serItem)
    (n : Nat) (xs : List α) (bxs rest : List Nat) (hP : ∀ x ∈ xs, P x)
    (hser : tupleNSer n serItem xs = .ok bxs) :
    tupleNDe n deItem (bxs ++ rest) = .ok (xs, rest) := by
  simp only [tupleNSer] at hser
  split at hser
  · exact Except.noConfusion hser
  · rename_i hn
    rw [not_not] at hn
    subst hn
    have htk := serElements_takeItems hED hC xs bxs rest hP hser
    simp [tupleNDe, htk]

/-- Decode-then-encode for the counted `TupleN` codec; the decoded element
count always equals the configured count. -/
theorem tupleN_decEnc {α : Type}
    {serItem : α → Except SerError (List Nat)}
    {deItem : List Nat → Except DeError (α × List Nat)}
    (hDE : DecEncId serItem deItem)
    (n : Nat) (bs : List Nat) (vs : List α) (rest : List Nat) (hV : ValidBytes bs)
    (h : tupleNDe n deItem bs = .ok (vs, rest)) :
    n = vs.length ∧ ∃ bxs, tupleNSer n serItem vs = .ok bxs ∧ bxs ++ rest = bs := by
  rcases htk : takeItems deItem n bs with ⟨vs', rest', err⟩
  cases err with
  | some e =>
    simp only [tupleNDe, htk] at h
    exact Except.noConfusion h
  | none =>
    simp only [tupleNDe, htk] at h
    split at h
    · exact Except.noConfusion h
    · rename_i hn
      rw [not_not] at hn
      simp only [Except.ok.injEq, Prod.mk.injEq] at h
      obtain ⟨h1, h2⟩ := h
      subst h1
      subst h2
      obtain ⟨bxs, hbxs, hcat⟩ := takeItems_serElements hDE n bs vs' rest' hV htk
      exact ⟨hn, bxs, by simp [tupleNSer, hn, hbxs], hcat⟩

/-- Encode-then-decode for the `LengthPrefixed` codec, generic in the
length-field codec. -/
theorem lengthPref_encDec {α : Type} {P : α → Prop} {QL : Nat → Prop}
    {lenSer : Nat → Except SerError (List Nat)}
    {lenDe : List Nat → Except DeError (Nat × List Nat)}
    {serItem : α → Except SerError (List Nat)}
    {deItem : List Nat → Except DeError (α × List Nat)}
    (hLED : EncDecId QL lenSer lenDe)
    (hED : EncDecId P serItem deItem) (hC : ConsumesInput serItem)
    (xs : List α) (bxs rest : List Nat) (hQ : QL xs.length) (hP : ∀ x ∈ xs, P x)
    (hser : lengthPrefSer lenSer serItem xs = .ok bxs) :
    lengthPrefDe lenDe deItem (bxs ++ rest) = .ok (xs, rest) := by
  cases hl : lenSer xs.length with
  | error e =>
    simp only [lengthPrefSer, hl] at hser
    exact Except.noConfusion hser
  | ok lenBytes =>
    cases hb : tupleNSer xs.length serItem xs with
    | error e =>
      simp only [lengthPrefSer, hl, hb] at hser
      exact Except.noConfusion hser
    | ok body =>
      simp only [lengthPrefSer, hl, hb, Except.ok.injEq] at hser
      subst hser
      have h1 : lenDe (lenBytes ++ (body ++ rest)) = .ok (xs.length, body ++ rest) :=
        hLED xs.length lenBytes (body ++ rest) hQ hl
      have h2 : tupleNDe xs.length deItem (body ++ rest) = .ok (xs, rest) :=
        tupleN_encDec hED hC xs.length xs body rest hP hb
      simp only [List.append_assoc, lengthPrefDe, h1, h2]

/-- Decode-then-encode for the `LengthPrefixed` codec. -/
theorem lengthPref_decEnc {α : Type}
    {lenSer : Nat → Except SerError (List Nat)}
    {lenDe : List Nat → Except DeError (Nat × List Nat)}
    {serItem : α → Except SerError (List Nat)}
    {deItem : List Nat → Except DeError (α × List Nat)}
    (hLDE : DecEncId lenSer lenDe) (hDE : DecEncId serItem deItem)
    (bs : List Nat) (vs : List α) (rest : List Nat) (hV : ValidBytes bs)
    (h : lengthPrefDe lenDe deItem bs = .ok (vs, rest)) :
    ∃ bxs, lengthPrefSer lenSer serItem vs = .ok bxs ∧ bxs ++ rest = bs := by
  cases hl : lenDe bs with
  | error e =>
    simp only [lengthPrefDe, hl] at h
    exact Except.noConfusion h
  | ok p =>
    obtain ⟨n, rest0⟩ := p
    simp only [lengthPrefDe, hl] at h
    obtain ⟨lb, hlb, hcat⟩ := hLDE bs n rest0 hV hl
    have hVr : ValidBytes rest0 := validBytes_append lb rest0 (hcat ▸ hV)
    obtain ⟨hn, bxs, hbxs, hcat2⟩ := tupleN_decEnc hDE n rest0 vs rest hVr h
    refine ⟨lb ++ bxs, ?_, ?_⟩
    · simp only [lengthPrefSer, ← hn, hlb, hbxs]
    · rw [List.append_assoc, hcat2, hcat]

/-! ## Helper lemmas: the `TryAsU32` length-field codec -/

/-- Encode-then-decode for the `TryAsU32(LittleEndian)` length codec. -/
theorem tryAsU32_encDec : EncDecId (fun v => v < 2 ^ 32) tryAsU32Ser tryAsU32De := by
  intro v bv rest hP hser
  simp only [tryAsU32Ser, if_pos hP, Except.ok.injEq] at hser
  subst hser
  have h := u32_encDec v (u32Ser v) rest hP rfl
  simp [tryAsU32De, h]

/-- Decode-then-encode for the `TryAsU32(LittleEndian)` length codec: a
count decoded from four real bytes always fits back into 32 bits. -/
theorem tryAsU32_decEnc : DecEncId tryAsU32Ser tryAsU32De := by
  intro bs v rest hV h
  cases hu : u32De bs with
  | error e =>
    simp only [tryAsU32De, hu] at h
    exact Except.noConfusion h
  | ok p =>
    obtain ⟨r, rest0⟩ := p
    simp only [tryAsU32De, hu, Except.ok.injEq, Prod.mk.injEq] at h
    obtain ⟨h1, h2⟩ := h
    subst h1
    subst h2
    have hlt := u32De_lt bs r rest0 hV hu
    obtain ⟨bv, hbv, hcat⟩ := u32_decEnc bs r rest0 hV hu
    refine ⟨bv, ?_, hcat⟩
    simp only [tryAsU32Ser, if_pos hlt]
    simpa [u32SerE] using hbv

/-- Encoded length fields occupy four bytes, hence are nonempty. -/
theorem tryAsU32_consumes : ConsumesInput tryAsU32Ser := by
  intro v bv h
  simp only [tryAsU32Ser] at h
  split at h
  · simp only [Except.ok.injEq] at h
    subst h
    simp [u32Ser, toLeBytes4]
  · exact Except.noConfusion h

/-! ## Helper lemmas: running short of input under the element loops -/

/-- With four-byte elements, a buffer holding fewer than `4 * n` bytes
either makes the loop stop on the integer codec's end-of-input error, or
exhausts cleanly with fewer than `n` elements obtained. -/
theorem takeItems_u32_short :
    ∀ (n : Nat) (bs : List Nat), bs.length < 4 * n →
      (∃ vs r, takeItems u32De n bs = (vs, r, some .endOfInput)) ∨
      (∃ vs, takeItems u32De n bs = (vs, [], none) ∧ vs.length < n) := by
  intro n
  induction n with
  | zero =>
    intro bs h
    exact absurd h (by omega)
  | succ n ih =>
    intro bs h
    match bs with
    | [] => exact Or.inr ⟨[], rfl, by simp⟩
    | [b0] => exact Or.inl ⟨[], [b0], rfl⟩
    | [b0, b1] => exact Or.inl ⟨[], [b0, b1], rfl⟩
    | [b0, b1, b2] => exact Or.inl ⟨[], [b0, b1, b2], rfl⟩
    | b0 :: b1 :: b2 :: b3 :: rest =>
      have hr : rest.length < 4 * n := by
        simp only [List.length_cons] at h
        omega
      have hde : u32De (b0 :: b1 :: b2 :: b3 :: rest) =
          .ok (fromLeBytes4 b0 b1 b2 b3, rest) := rfl
      rcases ih rest hr with ⟨vs, r, htk⟩ | ⟨vs, htk, hlen⟩
      · exact Or.inl ⟨fromLeBytes4 b0 b1 b2 b3 :: vs, r, by
          simp only [takeItems, hde, htk]⟩
      · refine Or.inr ⟨fromLeBytes4 b0 b1 b2 b3 :: vs, by
          simp only [takeItems, hde, htk], ?_⟩
        simp only [List.length_cons]
        omega

/-! ## Helper lemmas: the strict text table traversals -/

/-- A buffer containing an unmapped byte makes the strict table decode
fail on an unmapped byte; no substitution happens. -/
theorem strictTableDecode_unmapped (table : Nat → Option Nat) :
    ∀ (bs : List Nat) (i : Nat), bs.any (fun b => (table b).isNone) = true →
      ∃ j b, strictTableDecode table bs i = .error (.unmappableByte j b) ∧
        table b = none := by
  intro bs
  induction bs with
  | nil => intro i h; simp at h
  | cons b bs ih =>
    intro i h
    cases ht : table b with
    | none => exact ⟨i, b, by simp [strictTableDecode, ht], ht⟩
    | some c =>
      have h' : bs.any (fun x => (table x).isNone) = true := by
        simpa [List.any_cons, ht] using h
      obtain ⟨j, b', hj, hb'⟩ := ih (i + 1) h'
      exact ⟨j, b', by simp [strictTableDecode, ht, hj], hb'⟩

/-- A string containing an unmappable character makes the strict table
encode fail on an unmappable character. -/
theorem strictTableEncode_unmapped (inv : Nat → Option Nat) :
    ∀ (s : List Nat), s.any (fun c => (inv c).isNone) = true →
      ∃ c, strictTableEncode inv s = .error (.unmappableChar c) ∧ inv c = none := by
  intro s
  induction s with
  | nil => intro h; simp at h
  | cons c s ih =>
    intro h
    cases hc : inv c with
    | none => exact ⟨c, by simp [strictTableEncode, hc], hc⟩
    | some b =>
      have h' : s.any (fun x => (inv x).isNone) = true := by
        simpa [List.any_cons, hc] using h
      obtain ⟨c', hc', hn⟩ := ih h'
      exact ⟨c', by simp [strictTableEncode, hc, hc'], hn⟩

/-- A successful strict table decode maps every byte through the table, in
position: byte `i` of the input maps exactly to symbol `i` of the output. -/
theorem strictTableDecode_ok_map (table : Nat → Option Nat) :
    ∀ (bs : List Nat) (i : Nat) (out : List Nat),
      strictTableDecode table bs i = .ok out →
      bs.map table = out.map Option.some := by
  intro bs
  induction bs with
  | nil =>
    intro i out h
    simp only [strictTableDecode, Except.ok.injEq] at h
    subst h
    rfl
  | cons b bs ih =>
    intro i out h
    cases ht : table b with
    | none =>
      simp only [strictTableDecode, ht] at h
      exact Except.noConfusion h
    | some c =>
      cases hrec : strictTableDecode table bs (i + 1) with
      | error e =>
        simp only [strictTableDecode, ht, hrec] at h
        exact Except.noConfusion h
      | ok cs =>
        simp only [strictTableDecode, ht, hrec, Except.ok.injEq] at h
        subst h
        simp [List.map_cons, ht, ih (i + 1) cs hrec]

/-- When every element encodes, the element loop's encode succeeds (there
is no other failure source in it). -/
theorem serElements_total {α : Type} (serItem : α → Except SerError (List Nat)) :
    ∀ (xs : List α), (∀ x ∈ xs, ∃ bv, serItem x = .ok bv) →
      ∃ bxs, serElements serItem xs = .ok bxs := by
  intro xs
  induction xs with
  | nil => intro h; exact ⟨[], rfl⟩
  | cons x xs ih =>
    intro h
    obtain ⟨bv, hbv⟩ := h x (by simp)
    obtain ⟨bxs, hbxs⟩ := ih (fun y hy => h y (by simp [hy]))
    exact ⟨bv ++ bxs, by simp [serElements, hbv, hbxs]⟩

/-- Encode-then-decode for the `f32` codec, at the bit level. -/
theorem f32_roundtrip_bytes (x : F32) (rest : List Nat) (h : f32ToBits x < 2 ^ 32) :
    f32De (f32Ser x ++ rest) = .ok (x, rest) := by
  have hu := u32_encDec (f32ToBits x) (u32Ser (f32ToBits x)) rest h rfl
  simp only [f32Ser, f32De, hu]
  rfl

/-- Decode-then-encode for the `f32` codec: re-encoding the decoded float
reproduces the consumed bytes exactly. -/
theorem f32_serde_bytes (bs : List Nat) (x : F32) (rest : List Nat)
    (hV : ValidBytes bs) (h : f32De bs = .ok (x, rest)) : f32Ser x ++ rest = bs := by
  cases hu : u32De bs with
  | error e =>
    simp only [f32De, hu] at h
    exact Except.noConfusion h
  | ok p =>
    obtain ⟨r, rest0⟩ := p
    simp only [f32De, hu, Except.ok.injEq, Prod.mk.injEq] at h
    obtain ⟨h1, h2⟩ := h
    subst h2
    subst h1
    obtain ⟨bv, hbv, hcat⟩ := u32_decEnc bs r rest0 hV hu
    simp only [u32SerE, Except.ok.injEq] at hbv
    subst hbv
    exact hcat

/-! ## Claim theorems -/

/-- C4: little-endian integer codec correctness.  Encoding any 32-bit
unsigned value writes exactly four bytes, least significant byte first
(byte `k` is `v / 2^(8k) % 2^8`); decoding four bytes reassembles them in
that byte order; in particular `0x01020304` encodes to
`[0x04, 0x03, 0x02, 0x01]` and those bytes decode back to `0x01020304`. -/
theorem c4_u32_little_endian :
    (∀ v : Nat, v < 2 ^ 32 →
      (u32Ser v).length = 4 ∧
      u32Ser v = [v % 2 ^ 8, v / 2 ^ 8 % 2 ^ 8, v / 2 ^ 16 % 2 ^ 8, v / 2 ^ 24 % 2 ^ 8]) ∧
    (∀ (b0 b1 b2 b3 : Nat) (rest : List Nat),
      u32De (b0 :: b1 :: b2 :: b3 :: rest) =
        .ok (b0 + 2 ^ 8 * b1 + 2 ^ 16 * b2 + 2 ^ 24 * b3, rest)) ∧
    u32Ser 0x01020304 = [0x04, 0x03, 0x02, 0x01] ∧
    u32De [0x04, 0x03, 0x02, 0x01] = .ok (0x01020304, []) := by
  exact ⟨fun v hv => ⟨rfl, rfl⟩, fun b0 b1 b2 b3 rest => rfl, by decide, rfl⟩

/-- C4 witness: the theorem applied at the concrete input `0x01020304`. -/
theorem c4_witness :
    (u32Ser 0x01020304).length = 4 ∧
    u32Ser 0x01020304 =
      [0x01020304 % 2 ^ 8, 0x01020304 / 2 ^ 8 % 2 ^ 8,
        0x01020304 / 2 ^ 16 % 2 ^ 8, 0x01020304 / 2 ^ 24 % 2 ^ 8] :=
  c4_u32_little_endian.1 0x01020304 (by decide)

/-- C6: the IEEE-754 `f32` codec decodes by decoding the nested
little-endian `u32` and reinterpreting its bits with no validation — every
four-byte input (hence every 32-bit pattern, NaN and infinity patterns
included) is accepted; encode extracts the raw bit pattern and hands it to
the nested integer codec.  Concretely `1.0f32` (the pattern `0x3F800000`,
whose IEEE value is exactly 1) encodes to `[0x00, 0x00, 0x80, 0x3F]` and
those bytes decode to exactly that pattern; the quiet-NaN pattern
`0x7FC00000` and the infinity pattern `0x7F800000` decode successfully. -/
theorem c6_ieee754_f32 :
    (∀ (b0 b1 b2 b3 : Nat) (rest : List Nat),
      f32De (b0 :: b1 :: b2 :: b3 :: rest) =
        .ok (f32FromBits (fromLeBytes4 b0 b1 b2 b3), rest)) ∧
    (∀ x : F32, f32Ser x = u32Ser (f32ToBits x)) ∧
    f32ToRat (f32FromBits 0x3F800000) = some 1 ∧
    f32Ser (f32FromBits 0x3F800000) = [0x00, 0x00, 0x80, 0x3F] ∧
    f32De [0x00, 0x00, 0x80, 0x3F] = .ok (f32FromBits 0x3F800000, []) ∧
    f32IsNaN (f32FromBits 0x7FC00000) = true ∧
    f32De [0x00, 0x00, 0xC0, 0x7F] = .ok (f32FromBits 0x7FC00000, []) ∧
    f32De [0x00, 0x00, 0x80, 0x7F] = .ok (f32FromBits 0x7F800000, []) := by
  refine ⟨fun b0 b1 b2 b3 rest => rfl, fun x => rfl, ?_, by decide, rfl, by decide, rfl, rfl⟩
  norm_num [f32ToRat, f32Sign, f32Exponent, f32Mantissa, f32FromBits]

/-- C2: length agreement for the counted `TupleN` codec.  A successful
decode returns exactly `n` elements; with four-byte elements, a buffer too
short for `n` of them makes decode fail with a length error (either the
count assertion's `invalid_length` or the element codec's end-of-input);
and encode fails with the length-mismatch error — before any element is
written — whenever the container's length differs from the configured
count. -/
theorem c2_tupleN_length_agreement :
    (∀ (α : Type) (deItem : List Nat → Except DeError (α × List Nat)) (n : Nat)
        (bs : List Nat) (vs : List α) (rest : List Nat),
        tupleNDe n deItem bs = .ok (vs, rest) → vs.length = n) ∧
    (∀ (n : Nat) (bs : List Nat), bs.length < 4 * n →
        ∃ e, tupleNDe n u32De bs = .error e ∧ isLengthErr e = true) ∧
    (∀ (α : Type) (serItem : α → Except SerError (List Nat)) (n : Nat) (xs : List α),
        n ≠ xs.length → tupleNSer n serItem xs = .error (.lengthMismatch n xs.length)) := by
  refine ⟨?_, ?_, ?_⟩
  · intro α deItem n bs vs rest h
    rcases htk : takeItems deItem n bs with ⟨vs', rest', err⟩
    cases err with
    | some e =>
      simp only [tupleNDe, htk] at h
      exact Except.noConfusion h
    | none =>
      simp only [tupleNDe, htk] at h
      split at h
      · exact Except.noConfusion h
      · rename_i hn
        rw [not_not] at hn
        simp only [Except.ok.injEq, Prod.mk.injEq] at h
        obtain ⟨h1, -⟩ := h
        subst h1
        exact hn.symm
  · intro n bs h
    rcases takeItems_u32_short n bs h with ⟨vs, r, htk⟩ | ⟨vs, htk, hlen⟩
    · exact ⟨.endOfInput, by simp [tupleNDe, htk], rfl⟩
    · refine ⟨.invalidLength vs.length, ?_, rfl⟩
      have hne : n ≠ vs.length := by omega
      simp [tupleNDe, htk, hne]
  · intro α serItem n xs hne
    simp [tupleNSer, hne]

/-- C2 witness: the theorem applied at concrete inputs — a successful
2-element decode, a 2-byte buffer that cannot hold one 4-byte element, and
an encode of a 2-element container under a count of 3. -/
theorem c2_witness :
    ([1, 2] : List Nat).length = 2 ∧
    (∃ e, tupleNDe 1 u32De [7, 7] = .error e ∧ isLengthErr e = true) ∧
    tupleNSer 3 u32SerE [1, 2] = .error (.lengthMismatch 3 2) :=
  ⟨c2_tupleN_length_agreement.1 Nat u32De 2 [1, 0, 0, 0, 2, 0, 0, 0] [1, 2] [] rfl,
   c2_tupleN_length_agreement.2.1 1 [7, 7] (by decide),
   c2_tupleN_length_agreement.2.2 Nat u32SerE 3 [1, 2] (by decide)⟩

/-- C5 counterexample: the claim says the value-mismatch error identifies
the index of the mismatch.  It cannot: decoding `[0, 7]` (first mismatch
at index 0) and `[7, 0]` (first mismatch at index 1) against the literal
`[7, 7]` produces the *identical* error value — the payload carries only
the received byte, the expected byte and the configured literal. -/
theorem c5_counterexample :
    literalDe [7, 7] [0, 7] = .error (.invalidValue 0 7 [7, 7]) ∧
    literalDe [7, 7] [7, 0] = .error (.invalidValue 0 7 [7, 7]) := ⟨rfl, rfl⟩

/-- C5 (amended): Literal decode reads exactly N bytes, fails on the first
mismatch with a value-mismatch error identifying the expected byte, the
received byte and the configured literal (but not the index), fails with a
length error carrying the count obtained when input runs out before N
bytes, and on success produces unit; concretely, decoding `[1, 2, 3]`
against the literal `[1, 2, 4]` fails with the value-mismatch error with
expected `0x04`, received `0x03` (the mismatch occurring at index 2). -/
theorem c5_literal_decode :
    (∀ (common : List Nat) (x y : Nat) (t1 t2 : List Nat), x ≠ y →
      literalDe (common ++ x :: t1) (common ++ y :: t2) =
        .error (.invalidValue y x (common ++ x :: t1))) ∧
    (∀ (bs ext : List Nat), ext ≠ [] →
      literalDe (bs ++ ext) bs = .error (.invalidLength bs.length)) ∧
    (∀ (lit rest : List Nat), literalDe lit (lit ++ rest) = .ok ((), rest)) ∧
    literalDe [1, 2, 4] [1, 2, 3] = .error (.invalidValue 3 4 [1, 2, 4]) := by
  refine ⟨?_, ?_, ?_, rfl⟩
  · intro common x y t1 t2 hxy
    exact literalGo_mismatch (common ++ x :: t1) common x y t1 t2 0 hxy
  · intro bs ext hext
    have h := literalGo_short (bs ++ ext) bs ext 0 hext
    simpa using h
  · intro lit rest
    exact literalGo_matches lit lit 0 rest

/-- C5 witness: the theorem applied at concrete inputs — a mismatch, a
truncated input, and a successful decode. -/
theorem c5_witness :
    literalDe [9, 5] [9, 6, 1] = .error (.invalidValue 6 5 [9, 5]) ∧
    literalDe [3, 4] [3] = .error (.invalidLength 1) ∧
    literalDe [8, 9] [8, 9, 2] = .ok ((), [2]) := by
  refine ⟨?_, ?_, c5_literal_decode.2.2.1 [8, 9] [2]⟩
  · exact c5_literal_decode.1 [9] 5 6 [] [1] (by decide)
  · have h := c5_literal_decode.2.1 [3] [4] (by decide)
    simpa using h

/-- C7 counterexample: the claim says encoding a container whose length
differs from the Tuple arity fails before any byte is written.  In the
source, `TupleSeeded::serialize` never consults an arity — it frames the
tuple with the container's own length — so encoding the 2-element
container `[10, 20]` through the Tuple codec (whatever arity its decode
side was meant to have) succeeds and writes all 8 bytes. -/
theorem c7_counterexample :
    tupleSer u32SerE [10, 20] = .ok [10, 0, 0, 0, 20, 0, 0, 0] := rfl

/-- C7 (amended): the fixed-arity Tuple codec's encode path performs no
length check at all: it uses the container's actual length as the tuple
arity and writes all elements in order, succeeding whenever every element
encodes; the before-write length-mismatch check the claim describes exists
only in the counted TupleN codec. -/
theorem c7_tuple_encode_no_check :
    (∀ (α : Type) (serItem : α → Except SerError (List Nat)) (xs : List α),
      (∀ x ∈ xs, ∃ bv, serItem x = .ok bv) →
      ∃ bxs, tupleSer serItem xs = .ok bxs) ∧
    (∀ (α : Type) (serItem : α → Except SerError (List Nat)) (n : Nat) (xs : List α),
      n ≠ xs.length → tupleNSer n serItem xs = .error (.lengthMismatch n xs.length)) := by
  refine ⟨?_, ?_⟩
  · intro α serItem xs h
    exact serElements_total serItem xs h
  · intro α serItem n xs hne
    simp [tupleNSer, hne]

/-- C7 witness: the amended theorem applied at the 2-element container and
at the TupleN count mismatch. -/
theorem c7_witness :
    (∃ bxs, tupleSer u32SerE [10, 20, 30] = .ok bxs) ∧
    tupleNSer 4 u32SerE [10, 20, 30] = .error (.lengthMismatch 4 3) :=
  ⟨c7_tuple_encode_no_check.1 Nat u32SerE [10, 20, 30]
      (fun x _ => ⟨u32Ser x, rfl⟩),
   c7_tuple_encode_no_check.2 Nat u32SerE 4 [10, 20, 30] (by decide)⟩

/-- C3 (code bug, evaluated): composite decode does not always propagate a
sub-codec's error.  The unbounded Seq codec's visitor stores the second
element's end-of-input error in its `error` local but never consults it
(unlike `TupleNSeed`, which runs `error?`), so it swallows the error and
returns the partial result `[1]` as a success.  The fixed-arity Tuple
codec's visitor has the same dead `error` local, and its array builder
then replaces the second element's value-mismatch error (shown in the
middle conjunct) with `invalid_length(1)`, losing the original cause. -/
theorem c3_error_not_propagated :
    seqDe u32De [1, 0, 0, 0, 99] = .ok ([1], [99]) ∧
    literalDe [0xAA] [0xBB] = .error (.invalidValue 0xBB 0xAA [0xAA]) ∧
    tupleDe 2 (fun bs => literalDe [0xAA] bs) [0xAA, 0xBB] =
      .error (.invalidLength 1) := ⟨rfl, rfl, rfl⟩

/-- C8: LengthPrefixed encode with the `TryAsU32(LittleEndian)` length
field takes the container's actual length, converts it through the
fallible `cast::u32` conversion — failing with the conversion-overflow
error whenever the length does not fit in 32 bits, before anything else
happens — and otherwise writes the four-byte little-endian length field
followed by exactly the container's elements in order; the count is never
truncated. -/
theorem c8_lengthPref_encode :
    (∀ (α : Type) (serItem : α → Except SerError (List Nat)) (xs : List α),
      2 ^ 32 ≤ xs.length →
      lengthPrefSer tryAsU32Ser serItem xs = .error (.overflow xs.length)) ∧
    (∀ (α : Type) (serItem : α → Except SerError (List Nat)) (xs : List α)
        (body : List Nat),
      xs.length < 2 ^ 32 → serElements serItem xs = .ok body →
      lengthPrefSer tryAsU32Ser serItem xs = .ok (u32Ser xs.length ++ body)) := by
  refine ⟨?_, ?_⟩
  · intro α serItem xs h
    have hlt : ¬ xs.length < 4294967296 := by omega
    simp [lengthPrefSer, tryAsU32Ser, hlt]
  · intro α serItem xs body h hb
    have hlt : xs.length < 4294967296 := by omega
    simp [lengthPrefSer, tryAsU32Ser, hlt, tupleNSer, hb]

/-- C8 witness: the theorem applied to a container of `2^32` elements
(which overflows the 32-bit length field) and to a singleton container. -/
theorem c8_witness :
    lengthPrefSer tryAsU32Ser u32SerE (List.replicate (2 ^ 32) 0) =
      .error (.overflow (2 ^ 32)) ∧
    lengthPrefSer tryAsU32Ser u32SerE [5] = .ok (u32Ser 1 ++ [5, 0, 0, 0]) := by
  constructor
  · have hlen : (List.replicate (2 ^ 32) (0 : Nat)).length = 2 ^ 32 :=
      List.length_replicate _ _
    have h := c8_lengthPref_encode.1 Nat u32SerE (List.replicate (2 ^ 32) 0)
      (le_of_eq hlen.symm)
    rw [hlen] at h
    exact h
  · exact c8_lengthPref_encode.2 Nat u32SerE [5] [5, 0, 0, 0] (by norm_num) rfl

/-- C9: strictness of the Windows-1252 text codec.  Decoding a byte buffer
containing a byte with no table mapping fails with an encoding error
carrying an unmapped byte; encoding a string containing a character
outside the table's domain fails with an encoding error carrying such a
character; and a successful decode maps every input byte through the
table, position by position — no best-effort substitution either way. -/
theorem c9_text_strict :
    (∀ (table : Nat → Option Nat)
        (deBytes : List Nat → Except DeError (List Nat × List Nat))
        (bs raw rest : List Nat),
      deBytes bs = .ok (raw, rest) →
      raw.any (fun b => (table b).isNone) = true →
      ∃ i b, windows1252De table deBytes bs = .error (.unmappableByte i b) ∧
        table b = none) ∧
    (∀ (inv : Nat → Option Nat)
        (serBytes : List Nat → Except SerError (List Nat)) (s : List Nat),
      s.any (fun c => (inv c).isNone) = true →
      ∃ c, windows1252Ser inv serBytes s = .error (.unmappableChar c) ∧
        inv c = none) ∧
    (∀ (table : Nat → Option Nat) (bs out : List Nat),
      strictTableDecode table bs 0 = .ok out →
      bs.map table = out.map Option.some) := by
  refine ⟨?_, ?_, ?_⟩
  · intro table deBytes bs raw rest hde hany
    obtain ⟨j, b, hj, hb⟩ := strictTableDecode_unmapped table raw 0 hany
    exact ⟨j, b, by simp [windows1252De, hde, hj], hb⟩
  · intro inv serBytes s hany
    obtain ⟨c, hc, hn⟩ := strictTableEncode_unmapped inv s hany
    exact ⟨c, by simp [windows1252Ser, hc], hn⟩
  · intro table bs out h
    exact strictTableDecode_ok_map table bs 0 out h

/-- C9 witness: the theorem applied to a table that lacks a mapping for
byte 129 (as WINDOWS-1252 does) with a buffer containing that byte, and to
an inverse table with a string containing an unmappable character. -/
theorem c9_witness :
    (∃ i b, windows1252De (fun b => if b = 129 then none else some b)
        (fun bs => .ok (bs, [])) [72, 129, 33] = .error (.unmappableByte i b) ∧
        (if b = 129 then none else some b) = (none : Option Nat)) ∧
    (∃ c, windows1252Ser (fun c => if c = 1000 then none else some c)
        (fun bs => .ok bs) [72, 1000] = .error (.unmappableChar c) ∧
        (if c = 1000 then none else some c) = (none : Option Nat)) :=
  ⟨c9_text_strict.1 (fun b => if b = 129 then none else some b)
      (fun bs => .ok (bs, [])) [72, 129, 33] [72, 129, 33] [] rfl (by decide),
   c9_text_strict.2.1 (fun c => if c = 1000 then none else some c)
      (fun bs => .ok bs) [72, 1000] (by decide)⟩

/-- C10: bit-level float round trip.  `to_bits (from_bits r) = r` for every
32-bit pattern (and for `f64` every 64-bit pattern), re-encoding any
successfully decoded `f32` reproduces the consumed bytes exactly — so the
codec round-trips the byte representation even for NaN payloads — while
for the quiet-NaN pattern `0x7FC00000` the value-level round trip fails
under IEEE float equality: decode of encode succeeds with the identical
pattern, yet `NaN ≠ NaN`. -/
theorem c10_f32_bits_roundtrip :
    (∀ r : Nat, f32ToBits (f32FromBits r) = r) ∧
    (∀ r : Nat, f64ToBits (f64FromBits r) = r) ∧
    (∀ (bs : List Nat) (x : F32) (rest : List Nat), ValidBytes bs →
      f32De bs = .ok (x, rest) → f32Ser x ++ rest = bs) ∧
    f32IsNaN (f32FromBits 0x7FC00000) = true ∧
    f32De (f32Ser (f32FromBits 0x7FC00000)) = .ok (f32FromBits 0x7FC00000, []) ∧
    f32Eq (f32FromBits 0x7FC00000) (f32FromBits 0x7FC00000) = false := by
  refine ⟨fun r => rfl, fun r => rfl, ?_, by decide, rfl, by decide⟩
  intro bs x rest hV h
  exact f32_serde_bytes bs x rest hV h

/-- C10 witness: the byte-level conjunct applied to the NaN byte
sequence `[0x00, 0x00, 0xC0, 0x7F]`. -/
theorem c10_witness :
    f32Ser (f32FromBits 0x7FC00000) ++ [] = [0x00, 0x00, 0xC0, 0x7F] :=
  c10_f32_bits_roundtrip.2.2.1 [0x00, 0x00, 0xC0, 0x7F] (f32FromBits 0x7FC00000) []
    (by decide) rfl

/-- C1 counterexample: the round-trip law as stated fails on the float
codec's domain.  The NaN pattern `0xFFC00001` is accepted by the codec
(`from_bits` validates nothing, so it is in the domain); decoding its
encoding succeeds and returns the identical bit pattern — yet under the
type's defined equality (IEEE-754 `f32` equality, where NaN is unequal to
everything) the result is not equal to the original value. -/
theorem c1_counterexample :
    f32IsNaN (f32FromBits 0xFFC00001) = true ∧
    f32De (f32Ser (f32FromBits 0xFFC00001)) = .ok (f32FromBits 0xFFC00001, []) ∧
    f32Eq (f32FromBits 0xFFC00001) (f32FromBits 0xFFC00001) = false :=
  ⟨by decide, rfl, by decide⟩

/-- C1 (amended): round-trip law with float equality taken at the bit
level.  For every primitive codec — little-endian `u32`, `f32` via the
nested `u32` codec, `Tuple`, counted `TupleN`, `LengthPrefixed`, `Literal`
— and every value in the codec's domain (32-bit values for the integer and
float codecs; for containers, elements in the item codec's domain under an
item codec that round-trips and writes at least one byte per element),
decoding the encoding returns the value — with the decoded float carrying
exactly the bits of the original, which for non-NaN floats coincides with
IEEE value equality — and re-encoding any successfully decoded byte prefix
reproduces it byte-identically. -/
theorem c1_roundtrip :
    (∀ (v : Nat) (rest : List Nat), v < 2 ^ 32 →
      u32De (u32Ser v ++ rest) = .ok (v, rest)) ∧
    (∀ (bs : List Nat) (v : Nat) (rest : List Nat), ValidBytes bs →
      u32De bs = .ok (v, rest) → u32Ser v ++ rest = bs) ∧
    (∀ (x : F32) (rest : List Nat), f32ToBits x < 2 ^ 32 →
      f32De (f32Ser x ++ rest) = .ok (x, rest)) ∧
    (∀ (bs : List Nat) (x : F32) (rest : List Nat), ValidBytes bs →
      f32De bs = .ok (x, rest) → f32Ser x ++ rest = bs) ∧
    (∀ (lit rest : List Nat), literalDe lit (literalSer lit ++ rest) = .ok ((), rest)) ∧
    (∀ (lit bs rest : List Nat), literalDe lit bs = .ok ((), rest) →
      literalSer lit ++ rest = bs) ∧
    (∀ (α : Type) (P : α → Prop) (serItem : α → Except SerError (List Nat))
        (deItem : List Nat → Except DeError (α × List Nat)),
      EncDecId P serItem deItem → ConsumesInput serItem →
      ∀ (xs : List α) (bxs rest : List Nat), (∀ x ∈ xs, P x) →
      tupleSer serItem xs = .ok bxs →
      tupleDe xs.length deItem (bxs ++ rest) = .ok (xs, rest)) ∧
    (∀ (α : Type) (serItem : α → Except SerError (List Nat))
        (deItem : List Nat → Except DeError (α × List Nat)),
      DecEncId serItem deItem →
      ∀ (n : Nat) (bs : List Nat) (vs : List α) (rest : List Nat), ValidBytes bs →
      tupleDe n deItem bs = .ok (vs, rest) →
      ∃ bxs, tupleSer serItem vs = .ok bxs ∧ bxs ++ rest = bs) ∧
    (∀ (α : Type) (P : α → Prop) (serItem : α → Except SerError (List Nat))
        (deItem : List Nat → Except DeError (α × List Nat)),
      EncDecId P serItem deItem → ConsumesInput serItem →
      ∀ (n : Nat) (xs : List α) (bxs rest : List Nat), (∀ x ∈ xs, P x) →
      tupleNSer n serItem xs = .ok bxs →
      tupleNDe n deItem (bxs ++ rest) = .ok (xs, rest)) ∧
    (∀ (α : Type) (serItem : α → Except SerError (List Nat))
        (deItem : List Nat → Except DeError (α × List Nat)),
      DecEncId serItem deItem →
      ∀ (n : Nat) (bs : List Nat) (vs : List α) (rest : List Nat), ValidBytes bs →
      tupleNDe n deItem bs = .ok (vs, rest) →
      ∃ bxs, tupleNSer n serItem vs = .ok bxs ∧ bxs ++ rest = bs) ∧
    (∀ (α : Type) (P : α → Prop) (QL : Nat → Prop)
        (lenSer : Nat → Except SerError (List Nat))
        (lenDe : List Nat → Except DeError (Nat × List Nat))
        (serItem : α → Except SerError (List Nat))
        (deItem : List Nat → Except DeError (α × List Nat)),
      EncDecId QL lenSer lenDe → EncDecId P serItem deItem → ConsumesInput serItem →
      ∀ (xs : List α) (bxs rest : List Nat), QL xs.length → (∀ x ∈ xs, P x) →
      lengthPrefSer lenSer serItem xs = .ok bxs →
      lengthPrefDe lenDe deItem (bxs ++ rest) = .ok (xs, rest)) ∧
    (∀ (α : Type) (lenSer : Nat → Except SerError (List Nat))
        (lenDe : List Nat → Except DeError (Nat × List Nat))
        (serItem : α → Except SerError (List Nat))
        (deItem : List Nat → Except DeError (α × List Nat)),
      DecEncId lenSer lenDe → DecEncId serItem deItem →
      ∀ (bs : List Nat) (vs : List α) (rest : List Nat), ValidBytes bs →
      lengthPrefDe lenDe deItem bs = .ok (vs, rest) →
      ∃ bxs, lengthPrefSer lenSer serItem vs = .ok bxs ∧ bxs ++ rest = bs) := by
  refine ⟨?_, ?_, ?_, ?_, ?_, ?_, ?_, ?_, ?_, ?_, ?_, ?_⟩
  · intro v rest hv
    exact u32_encDec v (u32Ser v) rest hv rfl
  · intro bs v rest hV h
    obtain ⟨bv, hbv, hcat⟩ := u32_decEnc bs v rest hV h
    simp only [u32SerE, Except.ok.injEq] at hbv
    subst hbv
    exact hcat
  · intro x rest h
    exact f32_roundtrip_bytes x rest h
  · intro bs x rest hV h
    exact f32_serde_bytes bs x rest hV h
  · intro lit rest
    exact literalGo_matches lit lit 0 rest
  · intro lit bs rest h
    exact literalGo_ok_append lit lit 0 bs rest h
  · intro α P serItem deItem hED hC xs bxs rest hP hser
    exact tuple_encDec hED hC xs bxs rest hP hser
  · intro α serItem deItem hDE n bs vs rest hV h
    exact tuple_decEnc hDE n bs vs rest hV h
  · intro α P serItem deItem hED hC n xs bxs rest hP hser
    exact tupleN_encDec hED hC n xs bxs rest hP hser
  · intro α serItem deItem hDE n bs vs rest hV h
    exact (tupleN_decEnc hDE n bs vs rest hV h).2
  · intro α P QL lenSer lenDe serItem deItem hLED hED hC xs bxs rest hQ hP hser
    exact lengthPref_encDec hLED hED hC xs bxs rest hQ hP hser
  · intro α lenSer lenDe serItem deItem hLDE hDE bs vs rest hV h
    exact lengthPref_decEnc hLDE hDE bs vs rest hV h

/-- C1 witness: every conjunct of the amended round-trip theorem applied
at a concrete input, with the container codecs instantiated with the
little-endian `u32` item codec and the `TryAsU32(LittleEndian)` length
codec. -/
theorem c1_witness :
    u32De (u32Ser 0x01020304 ++ [9]) = .ok (0x01020304, [9]) ∧
    u32Ser 67305985 ++ [9] = [1, 2, 3, 4, 9] ∧
    f32De (f32Ser (f32FromBits 0x3F800000) ++ [9]) =
      .ok (f32FromBits 0x3F800000, [9]) ∧
    f32Ser (f32FromBits 0x7FC00000) ++ [9] = [0, 0, 192, 127, 9] ∧
    literalDe [1, 2] (literalSer [1, 2] ++ [7]) = .ok ((), [7]) ∧
    literalSer [5] ++ [6] = [5, 6] ∧
    tupleDe 2 u32De [1, 0, 0, 0, 2, 0, 0, 0, 9] = .ok ([1, 2], [9]) ∧
    (∃ bxs, tupleSer u32SerE [7] = .ok bxs ∧ bxs ++ [] = [7, 0, 0, 0]) ∧
    tupleNDe 2 u32De [1, 0, 0, 0, 2, 0, 0, 0, 9] = .ok ([1, 2], [9]) ∧
    (∃ bxs, tupleNSer 1 u32SerE [7] = .ok bxs ∧ bxs ++ [] = [7, 0, 0, 0]) ∧
    lengthPrefDe tryAsU32De u32De [1, 0, 0, 0, 5, 0, 0, 0, 9] = .ok ([5], [9]) ∧
    (∃ bxs, lengthPrefSer tryAsU32Ser u32SerE [5] = .ok bxs ∧
      bxs ++ [] = [1, 0, 0, 0, 5, 0, 0, 0]) := by
  obtain ⟨h1, h2, h3, h4, h5, h6, h7, h8, h9, h10, h11, h12⟩ := c1_roundtrip
  refine ⟨h1 0x01020304 [9] (by decide),
    h2 [1, 2, 3, 4, 9] 67305985 [9] (by decide) rfl,
    h3 (f32FromBits 0x3F800000) [9] (by decide),
    h4 [0, 0, 192, 127, 9] (f32FromBits 0x7FC00000) [9] (by decide) rfl,
    h5 [1, 2] [7],
    h6 [5] [5, 6] [6] rfl,
    h7 Nat (fun v => v < 2 ^ 32) u32SerE u32De u32_encDec u32_consumes
      [1, 2] [1, 0, 0, 0, 2, 0, 0, 0] [9] (by decide) rfl,
    h8 Nat u32SerE u32De u32_decEnc 1 [7, 0, 0, 0] [7] [] (by decide) rfl,
    h9 Nat (fun v => v < 2 ^ 32) u32SerE u32De u32_encDec u32_consumes
      2 [1, 2] [1, 0, 0, 0, 2, 0, 0, 0] [9] (by decide) rfl,
    h10 Nat u32SerE u32De u32_decEnc 1 [7, 0, 0, 0] [7] [] (by decide) rfl,
    h11 Nat (fun v => v < 2 ^ 32) (fun n => n < 2 ^ 32) tryAsU32Ser tryAsU32De
      u32SerE u32De tryAsU32_encDec u32_encDec u32_consumes
      [5] [1, 0, 0, 0, 5, 0, 0, 0] [9] (by decide) (by decide) rfl,
    h12 Nat tryAsU32Ser tryAsU32De u32SerE u32De tryAsU32_decEnc u32_decEnc
      [1, 0, 0, 0, 5, 0, 0, 0] [5] [] (by decide) rfl⟩
